import Mathlib

/-!
Verification of the blitz DOM adapter layer (packages/blitz-dom/src/handle.rs
and packages/dom/src/util.rs) against its natural-language specification.

The Rust code is shallowly embedded: node records become Lean structures,
arena storage becomes lists indexed by position, Rust strings become lists of
characters, `f32`/`f64` coordinates become exact rationals (the algorithms
use only addition, subtraction, comparison and division by constants), and
`usize` arithmetic is modelled with explicit reduction modulo 2^64 where
overflow matters.
-/

namespace Blitz

/-! ## Selector flag bookkeeping (handle.rs, apply_selector_flags) -/

/-- Bit mask of the selector flags that apply to the element itself.
Modelled from the selectors crate's ElementSelectorFlags::for_self: the
self-directed flags occupy bits disjoint from the parent-directed ones. -/
def selfFlagsMask : Nat := 16 + 32 + 64

/-- Bit mask of the selector flags that apply to the element's parent.
Modelled from the selectors crate's ElementSelectorFlags::for_parent. -/
def parentFlagsMask : Nat := 1 + 2 + 4 + 8

/-- ElementSelectorFlags::for_self — the self-directed subset of a flag set. -/
def for_self (flags : Nat) : Nat := flags &&& selfFlagsMask

/-- ElementSelectorFlags::for_parent — the parent-directed subset of a flag set. -/
def for_parent (flags : Nat) : Nat := flags &&& parentFlagsMask

/-- Node record for the selector-flag model: the DOM parent edge and the
monotonically OR'd selector_flags bitset. -/
structure FlagNode where
  parent : Option Nat
  selector_flags : Nat
deriving DecidableEq, Repr

/-- OR a flag set into the selector_flags of the node stored at index id
(the effect of `*node.selector_flags.borrow_mut() |= flags`). -/
def orFlagsInto (tree : List FlagNode) (id : Nat) (flags : Nat) : List FlagNode :=
  match tree.get? id with
  | some nd => tree.set id { nd with selector_flags := nd.selector_flags ||| flags }
  | none => tree

/-- apply_selector_flags from handle.rs lines 537-551, reproduced literally:
the self-directed subset is OR'd into this node's selector_flags; then, if the
parent-directed subset is non-empty and a parent exists, the code ORs
`self_flags` (not `parent_flags`) into the parent's selector_flags. -/
def apply_selector_flags (tree : List FlagNode) (id : Nat) (flags : Nat) : List FlagNode :=
  let self_flags := for_self flags
  let tree1 := if self_flags ≠ 0 then orFlagsInto tree id self_flags else tree
  let parent_flags := for_parent flags
  if parent_flags ≠ 0 then
    match (tree.get? id).bind (fun nd => nd.parent) with
    | some pid => orFlagsInto tree1 pid self_flags
    | none => tree1
  else tree1

/-- C1: the code does not OR the parent-directed subset into the parent.
Evaluating apply_selector_flags on a two-node tree (node 1 a child of node 0)
with a purely parent-directed flag set (bit 0, for_parent = 1, for_self = 0)
leaves both nodes' selector_flags unchanged, whereas the claim requires the
parent's selector_flags to gain bit 0: the source ORs the self-directed subset
into the parent instead of the parent-directed one. -/
theorem c1_parent_flags_dropped :
    apply_selector_flags [⟨none, 0⟩, ⟨some 0, 0⟩] 1 1 = [⟨none, 0⟩, ⟨some 0, 0⟩] ∧
    for_parent 1 = 1 ∧ for_self 1 = 0 := by decide

/-! ## Absolute positioning (handle.rs, absolute_position) -/

/-- Geometry of one node: final_layout location and scroll_offset. -/
structure NodeGeom where
  locX : ℚ
  locY : ℚ
  scrollX : ℚ
  scrollY : ℚ

/-- absolute_position from handle.rs lines 101-116: accumulate this node's
final_layout location minus its scroll_offset, then recurse into the
layout_parent. The chain of layout_parent links is reified as the list of
ancestor geometries (finite by the acyclicity invariant of the tree). -/
def absolute_position : NodeGeom → List NodeGeom → ℚ → ℚ → ℚ × ℚ
  | g, parents, x, y =>
    let x := x + g.locX - g.scrollX
    let y := y + g.locY - g.scrollY
    match parents with
    | p :: rest => absolute_position p rest x y
    | [] => (x, y)

/-- Per-node translation contributed to the x coordinate. -/
def chainOffsetX (g : NodeGeom) : ℚ := g.locX - g.scrollX

/-- Per-node translation contributed to the y coordinate. -/
def chainOffsetY (g : NodeGeom) : ℚ := g.locY - g.scrollY

/-- C7: absolute_position is a pure translation composition — it returns the
starting offset plus, for each node on the layout_parent chain, that node's
final_layout location minus its scroll_offset; and on the 3-level chain with
offsets (2,2), (5,5), (10,10) and zero scroll, absolute_position 0 0 on the
deepest node equals (17,17). -/
theorem c7_absolute_position_translation :
    (∀ (g : NodeGeom) (parents : List NodeGeom) (x y : ℚ),
      absolute_position g parents x y =
        (x + ((g :: parents).map chainOffsetX).sum,
         y + ((g :: parents).map chainOffsetY).sum)) ∧
    absolute_position ⟨2, 2, 0, 0⟩ [⟨5, 5, 0, 0⟩, ⟨10, 10, 0, 0⟩] 0 0 = (17, 17) := by
  have main : ∀ (parents : List NodeGeom) (g : NodeGeom) (x y : ℚ),
      absolute_position g parents x y =
        (x + ((g :: parents).map chainOffsetX).sum,
         y + ((g :: parents).map chainOffsetY).sum) := by
    intro parents
    induction parents with
    | nil =>
        intro g x y
        simp only [absolute_position, List.map_cons, List.map_nil, List.sum_cons,
          List.sum_nil, chainOffsetX, chainOffsetY, Prod.mk.injEq]
        constructor <;> ring
    | cons p rest ih =>
        intro g x y
        show absolute_position p rest (x + g.locX - g.scrollX) (y + g.locY - g.scrollY) = _
        rw [ih]
        simp only [List.map_cons, List.sum_cons, chainOffsetX, chainOffsetY, Prod.mk.injEq]
        constructor <;> ring
  refine ⟨fun g parents => main parents g, ?_⟩
  rw [main]
  norm_num [chainOffsetX, chainOffsetY]

/-! ## Hit testing (handle.rs, hit) -/

/-- Result of a hit test: the hit node's id and the point in that node's
local coordinate space. -/
structure HitResult where
  node_id : Nat
  x : ℚ
  y : ℚ
deriving DecidableEq

/-- The final_layout data a hit test reads: location and size. -/
structure Layout where
  locX : ℚ
  locY : ℚ
  width : ℚ
  height : ℚ

/-- A node of the layout tree as hit() traverses it: arena id, final_layout,
scroll_offset, and the layout_children list (an Option, as in the
`RefCell<Option<Vec<usize>>>` field; the arena indirection is reified into a
tree, which is faithful by the acyclicity invariant). -/
inductive LayoutTree where
  | node (id : Nat) (layout : Layout) (scrollX scrollY : ℚ)
      (layout_children : Option (List LayoutTree))

mutual

/-- hit from handle.rs lines 135-161: translate the parent-space point into
this node's local space (subtract the final_layout location, add the scroll
offset), reject points outside the scroll-extended box, otherwise return the
first layout child's hit if any child reports one, else this node. -/
def hit : LayoutTree → ℚ → ℚ → Option HitResult
  | .node id l sx sy layout_children, x, y =>
    let x := x - l.locX + sx
    let y := y - l.locY + sy
    if x < 0 ∨ x > l.width + sx ∨ y < 0 ∨ y > l.height + sy then
      none
    else
      match layout_children with
      | some cs =>
        match hitList cs x y with
        | some r => some r
        | none => some ⟨id, x, y⟩
      | none => some ⟨id, x, y⟩

/-- The `iter().flatten().find_map(|&id| self.get(id).hit(x, y))` loop:
first Some result over the layout children, in list order. -/
def hitList : List LayoutTree → ℚ → ℚ → Option HitResult
  | [], _, _ => none
  | c :: cs, x, y =>
    match hit c x y with
    | some r => some r
    | none => hitList cs x y

end

/-- Unfolding equation for hit at a node (the recursion is well-founded, so
the defining equation is a proved lemma rather than a definitional one). -/
theorem hit_node_eq (id : Nat) (l : Layout) (sx sy : ℚ)
    (oc : Option (List LayoutTree)) (x y : ℚ) :
    hit (.node id l sx sy oc) x y =
    (if x - l.locX + sx < 0 ∨ x - l.locX + sx > l.width + sx ∨
        y - l.locY + sy < 0 ∨ y - l.locY + sy > l.height + sy then
      none
    else
      match oc with
      | some cs =>
        match hitList cs (x - l.locX + sx) (y - l.locY + sy) with
        | some r => some r
        | none => some ⟨id, x - l.locX + sx, y - l.locY + sy⟩
      | none => some ⟨id, x - l.locX + sx, y - l.locY + sy⟩) := by
  rw [hit.eq_def]

/-- Unfolding equation for hitList on the empty children list. -/
theorem hitList_nil (x y : ℚ) : hitList [] x y = none := by
  rw [hitList.eq_def]

/-- Unfolding equation for hitList on a non-empty children list. -/
theorem hitList_cons (c : LayoutTree) (cs : List LayoutTree) (x y : ℚ) :
    hitList (c :: cs) x y =
      (match hit c x y with
      | some r => some r
      | none => hitList cs x y) := by
  rw [hitList.eq_def]

/-- If every child misses, the find_map over the children yields none. -/
theorem hitList_eq_none (cs : List LayoutTree) (x y : ℚ)
    (h : ∀ c ∈ cs, hit c x y = none) : hitList cs x y = none := by
  induction cs with
  | nil => exact hitList_nil x y
  | cons c rest ih =>
      rw [hitList_cons, h c (List.mem_cons_self c rest)]
      exact ih (fun d hd => h d (List.mem_cons_of_mem c hd))

/-- The find_map over the children yields the first child hit: if child i
hits and every earlier child misses, the result is child i's hit. -/
theorem hitList_eq_first (x y : ℚ) :
    ∀ (cs : List LayoutTree) (i : Nat) (c : LayoutTree) (r : HitResult),
    cs.get? i = some c → hit c x y = some r →
    (∀ j cj, j < i → cs.get? j = some cj → hit cj x y = none) →
    hitList cs x y = some r := by
  intro cs
  induction cs with
  | nil => intro i c r hget; simp at hget
  | cons c0 rest ih =>
      intro i c r hget hhit hprev
      cases i with
      | zero =>
          have hc : c0 = c := by simpa using hget
          subst hc
          rw [hitList_cons, hhit]
      | succ i0 =>
          have h0 : hit c0 x y = none := hprev 0 c0 (Nat.succ_pos i0) rfl
          rw [hitList_cons, h0]
          exact ih i0 c r (by simpa using hget) hhit
            (fun j cj hj hcj =>
              hprev (j + 1) cj (Nat.succ_lt_succ hj) (by simpa using hcj))

/-- C2: hit returns none exactly when the translated point (x minus the
final_layout x-offset plus the scroll x, likewise for y) lies outside the
closed scroll-extended box; when in bounds it returns the hit result of the
first layout child (in layout_children order) whose recursive hit is some,
and if no layout child reports a hit it returns this node's id with the
translated local coordinates. -/
theorem c2_hit_spec (id : Nat) (l : Layout) (sx sy : ℚ)
    (layout_children : Option (List LayoutTree)) (x y : ℚ) :
    (hit (.node id l sx sy layout_children) x y = none ↔
      (x - l.locX + sx < 0 ∨ x - l.locX + sx > l.width + sx ∨
       y - l.locY + sy < 0 ∨ y - l.locY + sy > l.height + sy)) ∧
    (¬ (x - l.locX + sx < 0 ∨ x - l.locX + sx > l.width + sx ∨
        y - l.locY + sy < 0 ∨ y - l.locY + sy > l.height + sy) →
      ((∀ c ∈ layout_children.getD [], hit c (x - l.locX + sx) (y - l.locY + sy) = none) →
        hit (.node id l sx sy layout_children) x y =
          some ⟨id, x - l.locX + sx, y - l.locY + sy⟩) ∧
      (∀ (i : Nat) (c : LayoutTree) (r : HitResult),
        (layout_children.getD []).get? i = some c →
        hit c (x - l.locX + sx) (y - l.locY + sy) = some r →
        (∀ j cj, j < i → (layout_children.getD []).get? j = some cj →
          hit cj (x - l.locX + sx) (y - l.locY + sy) = none) →
        hit (.node id l sx sy layout_children) x y = some r)) := by
  have hunfold := hit_node_eq id l sx sy layout_children x y
  by_cases hcond : x - l.locX + sx < 0 ∨ x - l.locX + sx > l.width + sx ∨
      y - l.locY + sy < 0 ∨ y - l.locY + sy > l.height + sy
  · refine ⟨?_, fun hin => absurd hcond hin⟩
    rw [hunfold, if_pos hcond]
    exact iff_of_true rfl hcond
  · constructor
    · rw [hunfold, if_neg hcond]
      refine iff_of_false ?_ hcond
      cases layout_children with
      | none => simp
      | some cs =>
          cases hhl : hitList cs (x - l.locX + sx) (y - l.locY + sy) <;> simp [hhl]
    · intro _
      constructor
      · intro hall
        rw [hunfold, if_neg hcond]
        cases layout_children with
        | none => rfl
        | some cs =>
            show (match hitList cs (x - l.locX + sx) (y - l.locY + sy) with
              | some r => some r
              | none => some ⟨id, x - l.locX + sx, y - l.locY + sy⟩) = _
            rw [hitList_eq_none cs _ _ (by simpa using hall)]
      · intro i c r hget hhit hprev
        rw [hunfold, if_neg hcond]
        cases layout_children with
        | none => simp at hget
        | some cs =>
            show (match hitList cs (x - l.locX + sx) (y - l.locY + sy) with
              | some r => some r
              | none => some ⟨id, x - l.locX + sx, y - l.locY + sy⟩) = _
            rw [hitList_eq_first _ _ cs i c r (by simpa using hget) hhit
              (fun j cj hj hcj => hprev j cj hj (by simpa using hcj))]

/-- C2 witness: on a single node of size 10 x 10 at the origin with no scroll
and an empty layout_children list, the point (5,5) is in bounds, no child
hits, and hit returns the node's own id with the translated coordinates. -/
theorem c2_hit_spec_witness :
    hit (.node 7 ⟨0, 0, 10, 10⟩ 0 0 (some [])) 5 5 = some ⟨7, 5, 5⟩ := by
  have h := c2_hit_spec 7 ⟨0, 0, 10, 10⟩ 0 0 (some []) 5 5
  have hin : ¬ ((5:ℚ) - 0 + 0 < 0 ∨ (5:ℚ) - 0 + 0 > 10 + 0 ∨
      (5:ℚ) - 0 + 0 < 0 ∨ (5:ℚ) - 0 + 0 > 10 + 0) := by norm_num
  have hres := (h.2 hin).1 (by simp)
  rw [hres]
  norm_num

/-! ## Attribute selector matching (handle.rs, attr_matches) -/

/-- Rust char::is_ascii_whitespace: space, tab, newline, form feed, carriage
return. -/
def isAsciiWs (c : Char) : Bool :=
  c = ' ' || c = '\t' || c = '\n' || c = '\x0c' || c = '\r'

/-- Worker for split_ascii_whitespace, accumulating the current token in
reverse. -/
def splitAsciiWsGo : List Char → List Char → List (List Char)
  | [], acc => if acc.isEmpty then [] else [acc.reverse]
  | c :: cs, acc =>
    if isAsciiWs c then
      if acc.isEmpty then splitAsciiWsGo cs []
      else acc.reverse :: splitAsciiWsGo cs []
    else splitAsciiWsGo cs (c :: acc)

/-- Rust str::split_ascii_whitespace: the maximal runs of
non-ASCII-whitespace characters, in order, with no empty tokens. -/
def split_ascii_whitespace (s : List Char) : List (List Char) :=
  splitAsciiWsGo s []

/-- Modelled from the spec: an element's attributes are an ordered list of
(name, value) pairs and lookup returns the first attribute with the given
name (the NodeData::attr helper lives in node.rs, which is outside the
sources under review; the data model is from spec section 3). -/
def getAttr (attrs : List (List Char × List Char)) (name : List Char) :
    Option (List Char) :=
  (attrs.find? (fun a => a.fst == name)).map (fun a => a.snd)

/-- The attribute selector operators of the selectors crate. -/
inductive AttrSelectorOperator where
  | equal | includes | dashMatch | prefixOp | substringOp | suffixOp
deriving DecidableEq

/-- AttrSelectorOperation: either a bare existence test or an operator with
an operand value. -/
inductive AttrSelectorOperation where
  | existsOp
  | withValue (operator : AttrSelectorOperator) (value : List Char)

/-- Rust str::contains — substring containment, by scanning every suffix for
the needle as a prefix. -/
def strContains : List Char → List Char → Bool
  | [], need => need.isEmpty
  | c :: t, need => need.isPrefixOf (c :: t) || strContains t need

/-- The UTF-8 encoded size of a character in bytes. -/
def utf8Len (c : Char) : Nat :=
  if c.toNat < 128 then 1
  else if c.toNat < 2048 then 2
  else if c.toNat < 65536 then 3
  else 4

/-- Rust str::len — the length of a string in UTF-8 bytes, not characters. -/
def byteLen (s : List Char) : Nat := (s.map utf8Len).sum

/-- Every character occupies at least one byte. -/
theorem utf8Len_pos (c : Char) : 1 ≤ utf8Len c := by
  unfold utf8Len
  split_ifs <;> omega

/-- Byte length is additive over concatenation. -/
theorem byteLen_append (s t : List Char) :
    byteLen (s ++ t) = byteLen s + byteLen t := by
  simp [byteLen]

/-- Only the empty string has zero bytes. -/
theorem byteLen_eq_zero (s : List Char) : byteLen s = 0 ↔ s = [] := by
  cases s with
  | nil => simp [byteLen]
  | cons c t =>
      have := utf8Len_pos c
      simp [byteLen]
      omega

/-- The DashMatch arm of attr_matches, reproduced literally from handle.rs
lines 447-453: attr_value.starts_with(value), then attr_value.len() ==
value.len() (BYTE lengths) or attr_value.chars().nth(value.len()) == '-' —
a CHARACTER index taken at the operand's BYTE length, so the two metrics are
mixed. (starts_with on two valid UTF-8 strings coincides with
character-list prefix, since UTF-8 is uniquely decodable and a valid
encoding never begins with a continuation byte.) -/
def dash_match (attr_value value : List Char) : Bool :=
  value.isPrefixOf attr_value &&
    (byteLen attr_value == byteLen value ||
      attr_value.get? (byteLen value) == some '-')

/-- attr_matches from handle.rs lines 422-460: look up the attribute (absent
means no match for every operation); Exists succeeds on presence; Equal is
exact equality; Includes tests each ASCII-whitespace token; DashMatch is the
mixed-metric test above; Prefix, Substring and Suffix are the literal
containment tests (their byte-based Rust implementations coincide with the
character-list containments for valid UTF-8, because a valid encoding never
starts with a continuation byte, so byte-aligned occurrences are always
character-aligned). -/
def attr_matches (attrs : List (List Char × List Char)) (local_name : List Char)
    (operation : AttrSelectorOperation) : Bool :=
  match getAttr attrs local_name with
  | none => false
  | some attr_value =>
    match operation with
    | .existsOp => true
    | .withValue operator value =>
      match operator with
      | .equal => attr_value == value
      | .includes =>
          (split_ascii_whitespace attr_value).any (fun word => word == value)
      | .dashMatch => dash_match attr_value value
      | .prefixOp => value.isPrefixOf attr_value
      | .substringOp => strContains attr_value value
      | .suffixOp => value.isSuffixOf attr_value

/-- The amended claim's statement of attribute matching: absent attribute
never matches; Exists requires presence only; Equal is exact equality;
Includes demands some whitespace token equal to the operand; DashMatch
demands equality, or the operand as a prefix with a hyphen at the character
position given by the operand's BYTE length (for ASCII operands this is
"operand immediately followed by a hyphen", for multi-byte operands the
index is skewed past the prefix); Prefix, Substring, Suffix are literal
containment. -/
def attrMatchesSpec (attr_value : Option (List Char))
    (operation : AttrSelectorOperation) : Prop :=
  match attr_value with
  | none => False
  | some v =>
    match operation with
    | .existsOp => True
    | .withValue operator value =>
      match operator with
      | .equal => v = value
      | .includes => value ∈ split_ascii_whitespace v
      | .dashMatch => v = value ∨ (value <+: v ∧ v.get? (byteLen value) = some '-')
      | .prefixOp => value <+: v
      | .substringOp => value <:+: v
      | .suffixOp => value <:+ v

/-- The source's mixed-metric DashMatch test, characterised: equality (the
byte lengths of a prefix agree exactly when the remainder is empty), or the
operand as a prefix with a hyphen at character position byteLen(operand). -/
theorem dash_match_iff (v value : List Char) :
    dash_match v value = true ↔
      (v = value ∨ (value <+: v ∧ v.get? (byteLen value) = some '-')) := by
  unfold dash_match
  simp only [Bool.and_eq_true, Bool.or_eq_true, List.isPrefixOf_iff_prefix,
    beq_iff_eq, Nat.beq_eq_true_eq]
  constructor
  · rintro ⟨hpre, hlen | hget⟩
    · left
      rcases hpre with ⟨t, rfl⟩
      rw [byteLen_append] at hlen
      have ht : t = [] := (byteLen_eq_zero t).mp (by omega)
      simp [ht]
    · exact Or.inr ⟨hpre, hget⟩
  · rintro (rfl | ⟨hpre, hget⟩)
    · exact ⟨List.prefix_refl v, Or.inl rfl⟩
    · exact ⟨hpre, Or.inr hget⟩

/-- A prefix followed by a hyphen at its character length is the same as the
prefix extended by a hyphen. -/
theorem prefix_hyphen_iff (v value : List Char) :
    (value <+: v ∧ v.get? value.length = some '-') ↔ (value ++ ['-']) <+: v := by
  constructor
  · rintro ⟨⟨t, rfl⟩, hget⟩
    rw [List.get?_append_right (Nat.le_refl _)] at hget
    simp only [Nat.sub_self] at hget
    cases t with
    | nil => simp at hget
    | cons c t' =>
        simp only [List.get?] at hget
        cases hget
        exact ⟨t', by simp⟩
  · rintro ⟨t, rfl⟩
    refine ⟨⟨'-' :: t, by simp⟩, ?_⟩
    rw [List.append_assoc, List.get?_append_right (Nat.le_refl _)]
    simp

/-- On a string of 1-byte (ASCII-range) characters the byte length is the
character count. -/
theorem byteLen_ascii (value : List Char) (h : ∀ c ∈ value, utf8Len c = 1) :
    byteLen value = value.length := by
  induction value with
  | nil => rfl
  | cons c t ih =>
      have hc : utf8Len c = 1 := h c (List.mem_cons_self c t)
      have ht := ih (fun d hd => h d (List.mem_cons_of_mem c hd))
      show utf8Len c + byteLen t = t.length + 1
      omega

/-- For an operand of 1-byte characters the mixed-metric DashMatch collapses
to the original claim's form: equality, or the operand immediately followed
by a hyphen. -/
theorem dash_match_ascii (v value : List Char) (h : ∀ c ∈ value, utf8Len c = 1) :
    dash_match v value = true ↔ (v = value ∨ (value ++ ['-']) <+: v) := by
  rw [dash_match_iff, byteLen_ascii value h, prefix_hyphen_iff]

/-- The substring scan is substring containment. -/
theorem strContains_iff_infix (v value : List Char) :
    strContains v value = true ↔ value <:+: v := by
  induction v with
  | nil => simp [strContains, List.isEmpty_iff, List.infix_nil]
  | cons c t ih =>
      simp [strContains, List.infix_cons_iff, ih, List.isPrefixOf_iff_prefix]

/-- C3 counterexample: DashMatch mixes byte length with character indexing.
For the attribute value "é-z" and the operand "é" (one character, two UTF-8
bytes) the code indexes the characters at position byteLen("é") = 2 and
finds 'z' rather than the hyphen at character position 1, so attr_matches
answers false although the value starts with the operand immediately
followed by '-', where the claim requires true. -/
theorem c3_counterexample :
    attr_matches [(['l', 'a', 'n', 'g'], ['é', '-', 'z'])] ['l', 'a', 'n', 'g']
      (.withValue .dashMatch ['é']) = false ∧
    (['é'] ++ ['-']) <+: ['é', '-', 'z'] ∧
    getAttr [(['l', 'a', 'n', 'g'], ['é', '-', 'z'])] ['l', 'a', 'n', 'g'] =
      some ['é', '-', 'z'] := by
  exact ⟨by decide, ⟨['z'], rfl⟩, by decide⟩

/-- C3 (amended): attr_matches agrees with the amended operation table —
absent attribute means false for every operation, Exists included; on a
present attribute, Exists is true, Equal is exact equality, Includes is
whole-token membership under ASCII-whitespace tokenization, DashMatch is
equality or the operand as a prefix with a hyphen at character position
byteLen(operand), and Prefix, Substring and Suffix are the literal
containment tests; moreover for operands of 1-byte characters DashMatch is
exactly the original claim's "equals, or operand immediately followed by a
hyphen". -/
theorem c3_attr_matches_amended :
    (∀ (attrs : List (List Char × List Char)) (local_name : List Char)
        (operation : AttrSelectorOperation),
      attr_matches attrs local_name operation = true ↔
        attrMatchesSpec (getAttr attrs local_name) operation) ∧
    (∀ v value : List Char, (∀ c ∈ value, utf8Len c = 1) →
      (dash_match v value = true ↔ (v = value ∨ (value ++ ['-']) <+: v))) := by
  refine ⟨?_, dash_match_ascii⟩
  intro attrs local_name operation
  unfold attr_matches attrMatchesSpec
  cases getAttr attrs local_name with
  | none => simp
  | some v =>
    cases operation with
    | existsOp => simp
    | withValue operator value =>
      cases operator with
      | equal => exact beq_iff_eq
      | includes =>
          rw [List.any_eq_true]
          constructor
          · rintro ⟨w, hw, hbeq⟩
            rw [beq_iff_eq] at hbeq
            exact hbeq ▸ hw
          · intro hv
            exact ⟨value, hv, beq_iff_eq.mpr rfl⟩
      | dashMatch => exact dash_match_iff v value
      | prefixOp => exact List.isPrefixOf_iff_prefix
      | substringOp => exact strContains_iff_infix v value
      | suffixOp => exact List.isSuffixOf_iff_suffix

/-! ## Sibling navigation and root test (handle.rs, forward, backward,
is_root) -/

/-- The number of values of the Rust usize type on the 64-bit targets blitz
builds for; usize arithmetic wraps modulo this in release builds. -/
def USIZE : Nat := 2 ^ 64

/-- A DOM node record as the navigation operations see it: arena id, parent
edge and ordered children ids. The arena (a Slab keyed by id) is modelled as
a list indexed by position. -/
structure NodeRec where
  id : Nat
  parent : Option Nat
  children : List Nat
deriving DecidableEq, Repr

/-- child_index from handle.rs lines 69-76: the position of this node's id in
its parent's children list. -/
def child_index (tree : List NodeRec) (node : NodeRec) : Option Nat :=
  node.parent.bind fun pid =>
    (tree.get? pid).bind fun par =>
      par.children.findIdx? (fun cid => cid == node.id)

/-- forward from handle.rs lines 78-87: child_index().unwrap_or(0) plus n,
indexed into the parent's children. The usize addition child_idx + n is
modelled with its release-mode wrapping semantics (reduction modulo 2^64). -/
def forward (tree : List NodeRec) (node : NodeRec) (n : Nat) : Option NodeRec :=
  node.parent.bind fun pid =>
    (tree.get? pid).bind fun par =>
      (par.children.get? (((child_index tree node).getD 0 + n) % USIZE)).bind
        fun sid => tree.get? sid

/-- backward from handle.rs lines 89-98: child_index().unwrap_or(0) minus n.
The usize subtraction child_idx - n is modelled with its release-mode
wrapping semantics: child_idx + (2^64 - n) reduced modulo 2^64. -/
def backward (tree : List NodeRec) (node : NodeRec) (n : Nat) : Option NodeRec :=
  node.parent.bind fun pid =>
    (tree.get? pid).bind fun par =>
      (par.children.get?
          (((child_index tree node).getD 0 + (USIZE - n % USIZE)) % USIZE)).bind
        fun sid => tree.get? sid

/-- parent_node from handle.rs lines 285-287. -/
def parent_node (tree : List NodeRec) (node : NodeRec) : Option NodeRec :=
  node.parent.bind fun pid => tree.get? pid

/-- is_root from handle.rs lines 609-613:
parent_node().and_then(parent_node).is_none(). -/
def is_root (tree : List NodeRec) (node : NodeRec) : Bool :=
  ((parent_node tree node).bind fun par => parent_node tree par).isNone

/-- A three-node tree: node 0 is the parent of nodes 1 and 2 (in that
order). -/
def exTree : List NodeRec :=
  [⟨0, none, [1, 2]⟩, ⟨1, some 0, []⟩, ⟨2, some 0, []⟩]

/-- C5 counterexample: at n = 2^64 - 1 the usize index arithmetic wraps.
Node 2 sits at child index 1 and has no sibling 2^64 - 1 positions after it
(the claim demands None), yet forward returns the earlier sibling node 1;
symmetrically node 1 has child index 0 < n (the claim demands None), yet
backward returns the later sibling node 2. -/
theorem c5_counterexample :
    forward exTree ⟨2, some 0, []⟩ (USIZE - 1) = some ⟨1, some 0, []⟩ ∧
    backward exTree ⟨1, some 0, []⟩ (USIZE - 1) = some ⟨2, some 0, []⟩ ∧
    ([1, 2] : List Nat).length ≤ 1 + (USIZE - 1) ∧ 0 < USIZE - 1 := by
  refine ⟨by decide, by decide, by decide, by decide⟩

/-- C5 (amended): in the non-wrapping range the claim holds — for a node
with a resolvable parent and child index i, forward(n) returns the sibling
at raw position i + n or None when that position does not exist (provided
i + n < 2^64), backward(n) returns the sibling at i - n when n ≤ i and None
when i < n (provided n - i ≤ 2^64 - children.length), and both return None
when the node has no parent; outside those ranges the usize arithmetic
wraps. -/
theorem c5_forward_backward_amended
    (tree : List NodeRec) (node : NodeRec) (pid : Nat) (par : NodeRec) (i n : Nat)
    (hpid : node.parent = some pid)
    (hpar : tree.get? pid = some par)
    (hidx : child_index tree node = some i)
    (hn : 1 ≤ n) (hnU : n < USIZE)
    (hlen : par.children.length < USIZE)
    (hwf : ∀ cid ∈ par.children, ∃ nd, tree.get? cid = some nd) :
    (∀ m : NodeRec, m.parent = none →
      forward tree m n = none ∧ backward tree m n = none) ∧
    (i + n < USIZE → par.children.length ≤ i + n → forward tree node n = none) ∧
    (∀ sid, par.children.get? (i + n) = some sid →
      ∃ nd, tree.get? sid = some nd ∧ forward tree node n = some nd) ∧
    (n ≤ i → ∀ sid, par.children.get? (i - n) = some sid →
      ∃ nd, tree.get? sid = some nd ∧ backward tree node n = some nd) ∧
    (i < n → n - i ≤ USIZE - par.children.length → backward tree node n = none) := by
  have hfwd : forward tree node n =
      (par.children.get? ((i + n) % USIZE)).bind (tree.get?) := by
    simp only [forward, hidx, Option.getD_some, hpid, Option.some_bind, hpar]
  have hbwd : backward tree node n =
      (par.children.get? ((i + (USIZE - n % USIZE)) % USIZE)).bind (tree.get?) := by
    simp only [backward, hidx, Option.getD_some, hpid, Option.some_bind, hpar]
  refine ⟨?_, ?_, ?_, ?_, ?_⟩
  · intro m hm
    constructor <;> simp [forward, backward, hm]
  · intro h1 h2
    rw [hfwd, Nat.mod_eq_of_lt h1, List.get?_eq_none.mpr h2]
    rfl
  · intro sid hsid
    have hb : i + n < par.children.length := by
      rcases List.get?_eq_some.mp hsid with ⟨h, _⟩
      exact h
    obtain ⟨nd, hnd⟩ := hwf sid (List.get?_mem hsid)
    refine ⟨nd, hnd, ?_⟩
    rw [hfwd, Nat.mod_eq_of_lt (Nat.lt_trans hb hlen), hsid, Option.some_bind, hnd]
  · intro hni sid hsid
    have hb : i - n < par.children.length := by
      rcases List.get?_eq_some.mp hsid with ⟨h, _⟩
      exact h
    have hrw : (i + (USIZE - n % USIZE)) % USIZE = i - n := by
      rw [Nat.mod_eq_of_lt hnU]
      have h1 : i + (USIZE - n) = (i - n) + USIZE := by omega
      rw [h1, Nat.add_mod_right, Nat.mod_eq_of_lt (Nat.lt_trans hb hlen)]
    obtain ⟨nd, hnd⟩ := hwf sid (List.get?_mem hsid)
    refine ⟨nd, hnd, ?_⟩
    rw [hbwd, hrw, hsid, Option.some_bind, hnd]
  · intro hlt hbound
    have hrw : (i + (USIZE - n % USIZE)) % USIZE = i + (USIZE - n) := by
      rw [Nat.mod_eq_of_lt hnU]
      exact Nat.mod_eq_of_lt (by omega)
    rw [hbwd, hrw, List.get?_eq_none.mpr (by omega)]
    rfl

/-- C5 witness: on the three-node tree, node 1 (child index 0) has node 2 as
the sibling one position forward, and node 2 (child index 1) has node 1 one
position backward. -/
theorem c5_forward_backward_amended_witness :
    forward exTree ⟨1, some 0, []⟩ 1 = some ⟨2, some 0, []⟩ ∧
    backward exTree ⟨2, some 0, []⟩ 1 = some ⟨1, some 0, []⟩ := by
  have hwf1 : ∀ cid ∈ (⟨0, none, [1, 2]⟩ : NodeRec).children,
      ∃ nd, exTree.get? cid = some nd := by
    intro cid hcid
    simp at hcid
    rcases hcid with rfl | rfl
    · exact ⟨⟨1, some 0, []⟩, by decide⟩
    · exact ⟨⟨2, some 0, []⟩, by decide⟩
  constructor
  · have h := c5_forward_backward_amended exTree ⟨1, some 0, []⟩ 0 ⟨0, none, [1, 2]⟩
      0 1 rfl rfl (by decide) (by decide) (by decide) (by decide) hwf1
    obtain ⟨nd, hnd, hf⟩ := h.2.2.1 2 rfl
    have hnd2 : nd = ⟨2, some 0, []⟩ := by
      have : some (⟨2, some 0, []⟩ : NodeRec) = some nd := by
        rw [← hnd]; decide
      exact (Option.some.inj this).symm
    rw [hf, hnd2]
  · have h := c5_forward_backward_amended exTree ⟨2, some 0, []⟩ 0 ⟨0, none, [1, 2]⟩
      1 1 rfl rfl (by decide) (by decide) (by decide) (by decide) hwf1
    obtain ⟨nd, hnd, hb⟩ := h.2.2.2.1 (by decide) 1 rfl
    have hnd1 : nd = ⟨1, some 0, []⟩ := by
      have : some (⟨1, some 0, []⟩ : NodeRec) = some nd := by
        rw [← hnd]; decide
      exact (Option.some.inj this).symm
    rw [hb, hnd1]

/-- C6 counterexample: on a parentless node (the document node of a one-node
tree) is_root returns true, but the claim requires a parent to exist, so its
iff fails there: the code also answers true when there is no parent at
all. -/
theorem c6_counterexample :
    ¬ ((is_root [⟨0, none, []⟩] ⟨0, none, []⟩ = true) ↔
      (∃ pid par, (⟨0, none, []⟩ : NodeRec).parent = some pid ∧
        ([(⟨0, none, []⟩ : NodeRec)] : List NodeRec).get? pid = some par ∧
        par.parent = none)) := by
  intro h
  rcases h.mp rfl with ⟨pid, par, hp, _, _⟩
  simp at hp

/-- C6 (amended): is_root returns true iff the node's grandparent does not
resolve — either the node has no (resolvable) parent, or its parent has no
(resolvable) parent. -/
theorem c6_is_root_amended (tree : List NodeRec) (node : NodeRec) :
    is_root tree node = true ↔
      (parent_node tree node = none ∨
        ∃ par, parent_node tree node = some par ∧ parent_node tree par = none) := by
  unfold is_root
  cases hp : parent_node tree node with
  | none => simp
  | some par => simp [Option.isNone_iff_eq_none]

/-! ## Presentational hint synthesis: bgcolor (handle.rs, parse_color_attr) -/

/-- Radix-16 digit value of a character (0-9, a-f, A-F by their ASCII
codes), as char::to_digit(16) inside u8::from_str_radix. -/
def hexVal? (c : Char) : Option Nat :=
  if 48 ≤ c.toNat ∧ c.toNat ≤ 57 then some (c.toNat - 48)
  else if 97 ≤ c.toNat ∧ c.toNat ≤ 102 then some (c.toNat - 97 + 10)
  else if 65 ≤ c.toNat ∧ c.toNat ≤ 70 then some (c.toNat - 65 + 10)
  else none

/-- Accumulate radix-16 digits left to right; none on the first non-digit. -/
def hexDigitsVal : List Char → Nat → Option Nat
  | [], acc => some acc
  | c :: cs, acc =>
    match hexVal? c with
    | some d => hexDigitsVal cs (acc * 16 + d)
    | none => none

/-- u8::from_str_radix(s, 16) for the unsigned u8 type: an optional '+'
sign (a '-' sign is not stripped for unsigned types and fails as a
non-digit) followed by at least one radix-16 digit; the value must fit in
u8. Because digits only grow the accumulated value, checking the final
value against 255 is equivalent to the source's per-step overflow check. -/
def from_str_radix_16_u8 (s : List Char) : Option Nat :=
  match s with
  | [] => none
  | c :: rest =>
    if c = '+' then
      if rest.isEmpty then none
      else (hexDigitsVal rest 0).bind fun v => if v ≤ 255 then some v else none
    else
      (hexDigitsVal (c :: rest) 0).bind fun v => if v ≤ 255 then some v else none

/-- Outcome of an operation that can panic. -/
inductive Panics (α : Type) where
  | ret (a : α)
  | panicked
deriving DecidableEq

/-- Take exactly n UTF-8 bytes from the front of a string as whole
characters; none when n bytes end inside a character or past the end (the
situations in which a Rust byte slice panics). -/
def takeBytes : List Char → Nat → Option (List Char)
  | _, 0 => some []
  | [], Nat.succ _ => none
  | c :: cs, n + 1 =>
    if utf8Len c ≤ n + 1 then (takeBytes cs (n + 1 - utf8Len c)).map (c :: ·)
    else none

/-- Drop exactly n UTF-8 bytes from the front of a string; none when n bytes
end inside a character or past the end. -/
def dropBytes : List Char → Nat → Option (List Char)
  | s, 0 => some s
  | [], Nat.succ _ => none
  | c :: cs, n + 1 =>
    if utf8Len c ≤ n + 1 then dropBytes cs (n + 1 - utf8Len c) else none

/-- The Rust byte-range slice &s[i..j] on a string: none exactly when the
real slice would panic (a bound inside a multi-byte character or past the
end). -/
def byteSlice (s : List Char) (i j : Nat) : Option (List Char) :=
  (dropBytes s i).bind fun t => takeBytes t (j - i)

/-- parse_color_attr from handle.rs lines 879-900: require a leading '#'
(one byte, so &value[1..] is safe); test the BYTE length of the remainder
against 3 and 6 and byte-slice the digit groups — each slice is evaluated
before its parse, and a slice whose bound falls inside a multi-byte
character panics, while a failed parse returns early with none. Alpha is
fixed at 1. -/
def parse_color_attr (value : List Char) : Panics (Option (Nat × Nat × Nat × ℚ)) :=
  if value.head? = some '#' then
    let v := value.drop 1
    if byteLen v = 3 then
      match byteSlice v 0 1 with
      | none => .panicked
      | some s1 =>
        match from_str_radix_16_u8 s1 with
        | none => .ret none
        | some r =>
          match byteSlice v 1 2 with
          | none => .panicked
          | some s2 =>
            match from_str_radix_16_u8 s2 with
            | none => .ret none
            | some g =>
              match byteSlice v 2 3 with
              | none => .panicked
              | some s3 =>
                match from_str_radix_16_u8 s3 with
                | none => .ret none
                | some b => .ret (some (r, g, b, 1))
    else if byteLen v = 6 then
      match byteSlice v 0 2 with
      | none => .panicked
      | some s1 =>
        match from_str_radix_16_u8 s1 with
        | none => .ret none
        | some r =>
          match byteSlice v 2 4 with
          | none => .panicked
          | some s2 =>
            match from_str_radix_16_u8 s2 with
            | none => .ret none
            | some g =>
              match byteSlice v 4 6 with
              | none => .panicked
              | some s3 =>
                match from_str_radix_16_u8 s3 with
                | none => .ret none
                | some b => .ret (some (r, g, b, 1))
    else .ret none
  else .ret none

/-- Value of a 2-character group under u8 radix-16 parsing, stated per the
amended claim: two hex digits give 16*hi + lo; a '+' sign followed by one
hex digit gives that digit; anything else, in particular a '-' sign (not
accepted by from_str_radix for unsigned types), is rejected. -/
def hexPairSpec? (a b : Char) : Option Nat :=
  match hexVal? a, hexVal? b with
  | some hi, some lo => some (16 * hi + lo)
  | _, _ => if a = '+' then hexVal? b else none

/-- The amended claim's statement of bgcolor parsing on values whose
characters are all 1-byte: a '#' followed by exactly 3 hex digits gives the
three digit values directly (0-15 each, not expanded to bytes), a '#'
followed by 6 characters gives the three 2-character group values under u8
radix-16 parsing (hex digit pairs, or '+' then a digit), anything else gives
none; alpha is fixed at 1. -/
def parseColorSpecAmended (value : List Char) : Option (Nat × Nat × Nat × ℚ) :=
  if value.head? = some '#' then
    match value.drop 1 with
    | [a, b, c] =>
      (hexVal? a).bind fun r =>
      (hexVal? b).bind fun g =>
      (hexVal? c).bind fun bl =>
      some (r, g, bl, 1)
    | [a, b, c, d, e, f] =>
      (hexPairSpec? a b).bind fun r =>
      (hexPairSpec? c d).bind fun g =>
      (hexPairSpec? e f).bind fun bl =>
      some (r, g, bl, 1)
    | _ => none
  else none

/-- A hex digit is below 16. -/
theorem hexVal_lt (c : Char) (d : Nat) (h : hexVal? c = some d) : d < 16 := by
  unfold hexVal? at h
  split_ifs at h with h1 h2 h3
  · injection h with h; omega
  · injection h with h; omega
  · injection h with h; omega

/-- One digit accumulated from zero is the digit itself. -/
theorem hexDigitsVal_single (b : Char) : hexDigitsVal [b] 0 = hexVal? b := by
  cases hv : hexVal? b <;> simp [hexDigitsVal, hv]

/-- On a single character, u8::from_str_radix is exactly the hex digit
value: a lone sign has no digits and is rejected, a '-' is not a digit, and
a digit fits in u8. -/
theorem from_str_radix_single (a : Char) :
    from_str_radix_16_u8 [a] = hexVal? a := by
  by_cases h1 : a = '+'
  · subst h1; decide
  simp only [from_str_radix_16_u8, if_neg h1]
  cases hv : hexVal? a with
  | none => simp [hexDigitsVal, hv]
  | some d =>
      have hd := hexVal_lt a d hv
      simp [hexDigitsVal, hv, show d ≤ 255 by omega]

/-- On two characters, u8::from_str_radix is the 2-character group value of
the amended claim. -/
theorem from_str_radix_pair (a b : Char) :
    from_str_radix_16_u8 [a, b] = hexPairSpec? a b := by
  have hplus : hexVal? '+' = none := by decide
  by_cases h1 : a = '+'
  · subst h1
    simp only [from_str_radix_16_u8, if_pos rfl, List.isEmpty_cons, Bool.false_eq_true,
      if_false, hexDigitsVal_single, hexPairSpec?, hplus]
    cases hv : hexVal? b with
    | none => simp [hv]
    | some d =>
        have hd := hexVal_lt b d hv
        simp [hv, show d ≤ 255 by omega]
  simp only [from_str_radix_16_u8, if_neg h1, hexPairSpec?]
  cases hva : hexVal? a with
  | none => simp [hexDigitsVal, hva, if_neg h1]
  | some d1 =>
      cases hvb : hexVal? b with
      | none => simp [hexDigitsVal, hva, hvb, if_neg h1]
      | some d2 =>
          have hd1 := hexVal_lt a d1 hva
          have hd2 := hexVal_lt b d2 hvb
          simp [hexDigitsVal, hva, hvb, show d1 * 16 + d2 ≤ 255 by omega,
            show 16 * d1 + d2 ≤ 255 by omega,
            show d1 * 16 = 16 * d1 from Nat.mul_comm d1 16]

/-- Byte length of a cons cell. -/
theorem byteLen_cons (c : Char) (s : List Char) :
    byteLen (c :: s) = utf8Len c + byteLen s := by
  simp [byteLen]

/-- C4 counterexample: both remaining parts of the claim fail. The
6-byte branch delegates to u8::from_str_radix, which also accepts a '+'
sign, so "#+f0000" — whose second character is not a hex digit — still
synthesizes (15, 0, 0, 1). And the length tests and slices are byte-based,
so "#éA" (whose 'é' makes the remainder 3 bytes but the slice bound at byte
1 falls inside 'é') panics instead of yielding no declaration — the claim
requires no declaration and no error for both values. -/
theorem c4_counterexample :
    parse_color_attr ['#', '+', 'f', '0', '0', '0', '0'] = .ret (some (15, 0, 0, 1)) ∧
    hexVal? '+' = none ∧
    (['#', '+', 'f', '0', '0', '0', '0'] : List Char).length = 7 ∧
    parse_color_attr ['#', 'é', 'A'] = .panicked := by
  refine ⟨by decide, by decide, by decide, by decide⟩

/-- C4 (amended): on values of 1-byte characters, parse_color_attr
synthesizes a color exactly for a '#' followed by 3 hex digits (each digit
taken directly as a 0-15 channel, so "#abc" gives (10,11,12,1)) or by 6
characters whose three 2-character groups are accepted by
u8::from_str_radix — two hex digits ("#ff0000" gives (255,0,0,1)) or '+'
followed by a digit ("#+f0000" gives (15,0,0,1)); a '-' sign is rejected
for the unsigned type ("#-00000" gives none); any value not starting with
'#', or whose byte length after '#' is neither 3 nor 6, yields none with no
panic; but a value whose remainder is 3 or 6 BYTES containing a multi-byte
character can panic on the byte slicing when reached ("#éA" panics). -/
theorem c4_parse_color_amended :
    (∀ value : List Char, (∀ c ∈ value, utf8Len c = 1) →
      parse_color_attr value = .ret (parseColorSpecAmended value)) ∧
    parse_color_attr ['#', 'f', 'f', '0', '0', '0', '0'] = .ret (some (255, 0, 0, 1)) ∧
    parse_color_attr ['#', 'a', 'b', 'c'] = .ret (some (10, 11, 12, 1)) ∧
    parse_color_attr ['#', '-', '0', '0', '0', '0', '0'] = .ret none ∧
    (∀ value : List Char, value.head? ≠ some '#' → parse_color_attr value = .ret none) ∧
    (∀ value : List Char, byteLen (value.drop 1) ≠ 3 → byteLen (value.drop 1) ≠ 6 →
      parse_color_attr value ≠ .panicked) := by
  refine ⟨?_, by decide, by decide, by decide, ?_, ?_⟩
  · intro value hascii
    by_cases hh : value.head? = some '#'
    · have hv : ∀ c ∈ value.drop 1, utf8Len c = 1 :=
        fun c hc => hascii c (List.mem_of_mem_drop hc)
      simp only [parse_color_attr, parseColorSpecAmended, if_pos hh]
      revert hv
      generalize value.drop 1 = w
      intro hv
      rcases w with _ | ⟨a, _ | ⟨b, _ | ⟨c, _ | ⟨d, _ | ⟨e, _ | ⟨f, _ | ⟨g2, t⟩⟩⟩⟩⟩⟩⟩
      · rfl
      · have ha := hv a (by simp)
        have hbl : byteLen [a] = 1 := by simp [byteLen, ha]
        rw [if_neg (by omega), if_neg (by omega)]
      · have ha := hv a (by simp)
        have hb := hv b (by simp)
        have hbl : byteLen [a, b] = 2 := by simp [byteLen, ha, hb]
        rw [if_neg (by omega), if_neg (by omega)]
      · have ha := hv a (by simp)
        have hb := hv b (by simp)
        have hc := hv c (by simp)
        have hbl : byteLen [a, b, c] = 3 := by simp [byteLen, ha, hb, hc]
        have hs1 : byteSlice [a, b, c] 0 1 = some [a] := by
          simp [byteSlice, dropBytes, takeBytes, ha]
        have hs2 : byteSlice [a, b, c] 1 2 = some [b] := by
          simp [byteSlice, dropBytes, takeBytes, ha, hb]
        have hs3 : byteSlice [a, b, c] 2 3 = some [c] := by
          simp [byteSlice, dropBytes, takeBytes, ha, hb, hc]
        rw [if_pos hbl]
        simp only [hs1, hs2, hs3, from_str_radix_single]
        cases hexVal? a <;> cases hexVal? b <;> cases hexVal? c <;> rfl
      · have ha := hv a (by simp)
        have hb := hv b (by simp)
        have hc := hv c (by simp)
        have hd := hv d (by simp)
        have hbl : byteLen [a, b, c, d] = 4 := by simp [byteLen, ha, hb, hc, hd]
        rw [if_neg (by omega), if_neg (by omega)]
      · have ha := hv a (by simp)
        have hb := hv b (by simp)
        have hc := hv c (by simp)
        have hd := hv d (by simp)
        have he := hv e (by simp)
        have hbl : byteLen [a, b, c, d, e] = 5 := by
          simp [byteLen, ha, hb, hc, hd, he]
        rw [if_neg (by omega), if_neg (by omega)]
      · have ha := hv a (by simp)
        have hb := hv b (by simp)
        have hc := hv c (by simp)
        have hd := hv d (by simp)
        have he := hv e (by simp)
        have hf := hv f (by simp)
        have hbl : byteLen [a, b, c, d, e, f] = 6 := by
          simp [byteLen, ha, hb, hc, hd, he, hf]
        have hs1 : byteSlice [a, b, c, d, e, f] 0 2 = some [a, b] := by
          simp [byteSlice, dropBytes, takeBytes, ha, hb]
        have hs2 : byteSlice [a, b, c, d, e, f] 2 4 = some [c, d] := by
          simp [byteSlice, dropBytes, takeBytes, ha, hb, hc, hd]
        have hs3 : byteSlice [a, b, c, d, e, f] 4 6 = some [e, f] := by
          simp [byteSlice, dropBytes, takeBytes, ha, hb, hc, hd, he, hf]
        rw [if_neg (by omega), if_pos hbl]
        simp only [hs1, hs2, hs3, from_str_radix_pair]
        cases hexPairSpec? a b <;> cases hexPairSpec? c d <;>
          cases hexPairSpec? e f <;> rfl
      · have ha := hv a (by simp)
        have hb := hv b (by simp)
        have hc := hv c (by simp)
        have hd := hv d (by simp)
        have he := hv e (by simp)
        have hf := hv f (by simp)
        have hg := hv g2 (by simp)
        have hbl : byteLen (a :: b :: c :: d :: e :: f :: g2 :: t) =
            7 + byteLen t := by
          rw [byteLen_cons, byteLen_cons, byteLen_cons, byteLen_cons,
            byteLen_cons, byteLen_cons, byteLen_cons, ha, hb, hc, hd, he, hf, hg]
          ring
        rw [if_neg (by omega), if_neg (by omega)]
    · simp only [parse_color_attr, parseColorSpecAmended, if_neg hh]
  · intro value h
    simp only [parse_color_attr, if_neg h]
  · intro value h3 h6
    by_cases hh : value.head? = some '#'
    · simp only [parse_color_attr, if_pos hh, if_neg h3, if_neg h6]
      exact fun hcon => Panics.noConfusion hcon
    · simp only [parse_color_attr, if_neg hh]
      exact fun hcon => Panics.noConfusion hcon

/-! ## Presentational hint synthesis: width and height (handle.rs,
parse_size_attr) -/

/-- Powers of ten in the rationals, for decimal fraction and exponent
scaling. -/
def pow10 : Nat → ℚ
  | 0 => 1
  | n + 1 => 10 * pow10 n

/-- Decimal digits accumulated left to right. -/
def digitsToNat : List Char → Nat → Nat
  | [], acc => acc
  | c :: cs, acc => digitsToNat cs (acc * 10 + (c.toNat - 48))

/-- A non-empty all-digit run parsed as a natural number. -/
def parseNatDigits? (s : List Char) : Option Nat :=
  if s ≠ [] ∧ s.all Char.isDigit = true then some (digitsToNat s 0) else none

/-- The exponent part of the float grammar, after the e or E: an optional
sign followed by at least one digit. -/
def parseExpPart (s : List Char) : Option ℤ :=
  match s with
  | [] => none
  | c :: rest =>
    if c = '+' then (parseNatDigits? rest).map (fun n => (n : ℤ))
    else if c = '-' then (parseNatDigits? rest).map (fun n => -(n : ℤ))
    else (parseNatDigits? (c :: rest)).map (fun n => (n : ℤ))

/-- Scale a mantissa by a signed power of ten. -/
def applyExp (m : ℚ) (k : ℤ) : ℚ :=
  if 0 ≤ k then m * pow10 k.toNat else m / pow10 (-k).toNat

/-- The unsigned part of Rust's f32 FromStr grammar, restricted to finite
decimal numerals: Digit+ | Digit+ '.' Digit* | Digit* '.' Digit+, with an
optional e/E exponent; values are exact rationals (the inf/nan keywords and
binary rounding of the actual f32 type are abstracted away — the claims
under verification do not depend on them). -/
def parseMantissaExp (s : List Char) : Option ℚ :=
  let intDigits := s.takeWhile Char.isDigit
  let rest1 := s.dropWhile Char.isDigit
  match rest1 with
  | [] => if intDigits.isEmpty then none else some (digitsToNat intDigits 0 : ℚ)
  | c :: rest2 =>
    if c = '.' then
      let fracDigits := rest2.takeWhile Char.isDigit
      let rest3 := rest2.dropWhile Char.isDigit
      if intDigits.isEmpty ∧ fracDigits.isEmpty then none
      else
        let mant : ℚ := (digitsToNat intDigits 0 : ℚ) +
          (digitsToNat fracDigits 0 : ℚ) / pow10 fracDigits.length
        match rest3 with
        | [] => some mant
        | e :: rest4 =>
          if e = 'e' ∨ e = 'E' then (parseExpPart rest4).map (applyExp mant)
          else none
    else if c = 'e' ∨ c = 'E' then
      if intDigits.isEmpty then none
      else (parseExpPart rest2).map (applyExp (digitsToNat intDigits 0 : ℚ))
    else none

/-- An f32 value as parse and the size declarations see it: a finite value
(kept as an exact rational — the rounding of the actual f32 type, including
the saturation of out-of-range finite numerals to infinity, is abstracted
away; it never changes whether a declaration is synthesized), a signed
infinity, or NaN. -/
inductive FloatVal where
  | finite (q : ℚ)
  | inf (neg : Bool)
  | nan
deriving DecidableEq

/-- ASCII lower-casing of one character, for the case-insensitive keyword
comparison of f32::from_str. -/
def asciiLower (c : Char) : Char :=
  if 65 ≤ c.toNat ∧ c.toNat ≤ 90 then Char.ofNat (c.toNat + 32) else c

/-- The special-value cases of f32::from_str: after the optional sign, the
whole remaining input equal (ASCII-case-insensitively) to inf, infinity or
nan. -/
def parse_special (s : List Char) (neg : Bool) : Option FloatVal :=
  let low := s.map asciiLower
  if low = ['i', 'n', 'f'] ∨ low = ['i', 'n', 'f', 'i', 'n', 'i', 't', 'y'] then
    some (.inf neg)
  else if low = ['n', 'a', 'n'] then some .nan
  else none

/-- The sign-stripped body of f32::from_str: a special keyword, or a finite
decimal numeral with the sign applied. -/
def parseBody (s : List Char) (neg : Bool) : Option FloatVal :=
  match parse_special s neg with
  | some v => some v
  | none => (parseMantissaExp s).map (fun q => .finite (if neg then -q else q))

/-- Rust f32::from_str: an optional sign, then a decimal numeral or one of
the keywords inf, infinity, nan (case-insensitive). -/
def parse_f32 (s : List Char) : Option FloatVal :=
  match s with
  | [] => none
  | c :: rest =>
    if c = '+' then parseBody rest false
    else if c = '-' then parseBody rest true
    else parseBody (c :: rest) false

/-- Division of an f32 value by a positive rational constant (the val/100.0
of the percentage branch): infinities and NaN are preserved. -/
def divF (v : FloatVal) (d : ℚ) : FloatVal :=
  match v with
  | .finite q => .finite (q / d)
  | .inf b => .inf b
  | .nan => .nan

/-- A synthesized size declaration: an absolute pixel length or a
percentage fraction (the value stored inside Percentage, i.e. the attribute
number divided by 100). -/
inductive LengthPercentage where
  | len (px : FloatVal)
  | percentage (p : FloatVal)
deriving DecidableEq

/-- Rust str::strip_suffix: the prefix before the suffix, when the suffix
matches. -/
def strip_suffix (s p : List Char) : Option (List Char) :=
  if p.isSuffixOf s then some (s.take (s.length - p.length)) else none

/-- parse_size_attr from handle.rs lines 902-920: strip a px suffix and
parse the remainder as a pixel length; otherwise strip a % suffix and parse
the remainder as a percentage of 100; otherwise parse the whole value as a
pixel length; a failed numeric parse in the chosen branch yields none. -/
def parse_size_attr (value : List Char) : Option LengthPercentage :=
  match strip_suffix value ['p', 'x'] with
  | some v => (parse_f32 v).map .len
  | none =>
    match strip_suffix value ['%'] with
    | some v => (parse_f32 v).map (fun val => .percentage (divF val 100))
    | none => (parse_f32 value).map .len

/-- The amended claim's statement of size parsing: a value ending in px
whose remainder parses under the f32 grammar — a signed decimal numeral or
the keywords inf/infinity/nan — is that value in pixels, a value ending in %
whose remainder parses is that value divided by 100 as a percentage, a value
with neither suffix that parses is that value in pixels, and everything
else produces no declaration (the original claim's non-negativity assertion
is dropped: the grammar accepts a sign). -/
def parseSizeSpecAmended (value : List Char) : Option LengthPercentage :=
  if (['p', 'x']).isSuffixOf value then
    (parse_f32 (value.take (value.length - 2))).map .len
  else if (['%']).isSuffixOf value then
    (parse_f32 (value.take (value.length - 1))).map
      (fun v => .percentage (divF v 100))
  else (parse_f32 value).map .len

/-- C8 counterexample: the numeric grammar accepts a leading minus sign, so
width="-5px" synthesizes the pixel-length declaration -5, which is negative
— the claim's assertion that every size declaration so produced is
non-negative fails (the NonNegative wrapper in the source is applied without
clamping or checking). -/
theorem c8_counterexample :
    ∃ q : ℚ, parse_size_attr ['-', '5', 'p', 'x'] = some (.len (.finite q)) ∧ q < 0 := by
  refine ⟨-(digitsToNat ['5'] 0 : ℚ), ?_, ?_⟩
  · rfl
  · show -((5 : ℕ) : ℚ) < 0
    norm_num

/-- C8 (amended): parse_size_attr agrees with the claim's branch structure —
px suffix or no suffix with a parsing remainder gives that value as a pixel
length, % suffix with a parsing remainder gives the value divided by 100 as
a percentage, anything else gives no declaration and no error (the
operation is a total function into Option) — with the f32 grammar including
the inf/infinity/nan keywords, so width="inf" and width="infpx" synthesize
an infinite pixel length and "nan" a NaN one, and without the original
claim's non-negativity clause. -/
theorem c8_parse_size_amended :
    (∀ value : List Char, parse_size_attr value = parseSizeSpecAmended value) ∧
    parse_size_attr ['i', 'n', 'f'] = some (.len (.inf false)) ∧
    parse_size_attr ['i', 'n', 'f', 'p', 'x'] = some (.len (.inf false)) ∧
    parse_size_attr ['-', 'I', 'N', 'F'] = some (.len (.inf true)) ∧
    parse_size_attr ['n', 'a', 'n'] = some (.len .nan) := by
  refine ⟨?_, by decide, by decide, by decide, by decide⟩
  intro value
  unfold parse_size_attr parseSizeSpecAmended strip_suffix
  by_cases h1 : (['p', 'x'] : List Char).isSuffixOf value = true
  · simp [h1]
  · simp only [h1, Bool.false_eq_true, if_false, if_neg h1]
    by_cases h2 : (['%'] : List Char).isSuffixOf value = true
    · simp [h2]
    · simp [h2]

/-! ## Resource fetching (dom/src/util.rs: fetch_blob, fetch_string,
fetch_image) -/

/-- A parsed URL as fetch_blob consumes it: scheme and path. -/
structure ParsedUrl where
  scheme : List Char
  path : List Char

/-- The typed fetch error of util.rs, distinguishing URL-parse, transport
(ureq) and file-I/O causes; the error payloads are abstracted as numbers. -/
inductive FetchErr where
  | urlParse (e : Nat)
  | ureq (e : Nat)
  | fileIo (e : Nat)
deriving DecidableEq

/-- The typed image fetch error of util.rs, adding image-decode and
vector-decode causes. -/
inductive ImageFetchErr where
  | urlParse (e : Nat)
  | ureq (e : Nat)
  | fileIo (e : Nat)
  | imageParse (e : Nat)
  | svgParse (e : Nat)
deriving DecidableEq

/-- The From<FetchErr> for ImageFetchErr conversion. -/
def FetchErr.toImage : FetchErr → ImageFetchErr
  | .urlParse e => .urlParse e
  | .ureq e => .ureq e
  | .fileIo e => .fileIo e

/-- A decoded raster image or parsed SVG tree (contents abstracted). -/
inductive ImageOrSvg where
  | image (i : Nat)
  | svg (t : Nat)
deriving DecidableEq

/-- Outcome of a fetch operation: success, a typed recoverable error, or a
panic (an unwrap/expect in the source) carrying its message. -/
inductive FetchOutcome (ε α : Type) where
  | ok (a : α)
  | err (e : ε)
  | panicked (msg : List Char)

/-- Whether an outcome is a panic. -/
def FetchOutcome.isPanicked {ε α : Type} : FetchOutcome ε α → Bool
  | .panicked _ => true
  | _ => false

/-- The external services fetch_blob and friends consult, as oracles:
data-URL processing and decoding (DataUrl::process plus decode_to_vec,
combined into one oracle since the source unwraps both), URL parsing, file
reading, the HTTP GET call, reading the response body (with the 1GB take),
UTF-8 decoding, raster image decoding and SVG parsing. Responses, images
and SVG trees are abstracted as numbers. -/
structure FetchEnv where
  dataUrlDecode : List Char → Option (List Nat)
  urlParse : List Char → Except Nat ParsedUrl
  readFile : List Char → Except Nat (List Nat)
  httpGet : List Char → Except Nat Nat
  readBody : Nat → Except Nat (List Nat)
  utf8Decode : List Nat → Option (List Char)
  imageDecode : List Nat → Option Nat
  svgParse : List Nat → Except Nat Nat

/-- fetch_blob from util.rs lines 36-73: a data: URL is decoded inline with
unwrap/expect (decode failure panics); otherwise the URL is parsed (failure
is the typed UrlParse error), a file: URL is read from disk (failure is the
typed FileIo error), and anything else is fetched over HTTP (call failure is
the typed Ureq error, but a failure while reading the body is unwrapped and
panics). -/
def fetch_blob (env : FetchEnv) (url : List Char) : FetchOutcome FetchErr (List Nat) :=
  if (['d', 'a', 't', 'a', ':'] : List Char).isPrefixOf url then
    match env.dataUrlDecode url with
    | some bytes => .ok bytes
    | none => .panicked ['I', 'n', 'v', 'a', 'l', 'i', 'd', ' ',
        'd', 'a', 't', 'a', ' ', 'u', 'r', 'l']
  else
    match env.urlParse url with
    | .error e => .err (.urlParse e)
    | .ok parsed =>
      if parsed.scheme = ['f', 'i', 'l', 'e'] then
        match env.readFile parsed.path with
        | .error e => .err (.fileIo e)
        | .ok content => .ok content
      else
        match env.httpGet url with
        | .error e => .err (.ureq e)
        | .ok resp =>
          match env.readBody resp with
          | .error _ => .panicked ['r', 'e', 'a', 'd', '_', 't', 'o', '_',
              'e', 'n', 'd']
          | .ok bytes => .ok bytes

/-- fetch_string from util.rs lines 75-77: fetch_blob then a UTF-8 decode
whose failure is an expect, i.e. a panic. -/
def fetch_string (env : FetchEnv) (url : List Char) : FetchOutcome FetchErr (List Char) :=
  match fetch_blob env url with
  | .ok bytes =>
    match env.utf8Decode bytes with
    | some s => .ok s
    | none => .panicked ['I', 'n', 'v', 'a', 'l', 'i', 'd', ' ', 'U', 'T', 'F', '8']
  | .err e => .err e
  | .panicked m => .panicked m

/-- fetch_image from util.rs lines 120-148: fetch_blob (errors converted to
the image error type), then try a raster decode, falling back on failure to
SVG parsing whose failure is the typed SvgParse error. -/
def fetch_image (env : FetchEnv) (url : List Char) : FetchOutcome ImageFetchErr ImageOrSvg :=
  match fetch_blob env url with
  | .err e => .err e.toImage
  | .panicked m => .panicked m
  | .ok blob =>
    match env.imageDecode blob with
    | some i => .ok (.image i)
    | none =>
      match env.svgParse blob with
      | .ok t => .ok (.svg t)
      | .error e => .err (.svgParse e)

/-- An environment whose data-URL decode fails. -/
def envBadData : FetchEnv :=
  { dataUrlDecode := fun _ => none
    urlParse := fun _ => .error 0
    readFile := fun _ => .error 0
    httpGet := fun _ => .error 0
    readBody := fun _ => .error 0
    utf8Decode := fun _ => none
    imageDecode := fun _ => none
    svgParse := fun _ => .error 0 }

/-- An environment that returns a byte blob which is not valid UTF-8. -/
def envBadUtf : FetchEnv :=
  { dataUrlDecode := fun _ => some [255]
    urlParse := fun _ => .error 0
    readFile := fun _ => .error 0
    httpGet := fun _ => .error 0
    readBody := fun _ => .error 0
    utf8Decode := fun _ => none
    imageDecode := fun _ => none
    svgParse := fun _ => .error 0 }

/-- An environment in which every external service succeeds. -/
def envOk : FetchEnv :=
  { dataUrlDecode := fun _ => some []
    urlParse := fun _ => .ok ⟨['h'], []⟩
    readFile := fun _ => .ok []
    httpGet := fun _ => .ok 0
    readBody := fun _ => .ok []
    utf8Decode := fun _ => some []
    imageDecode := fun _ => some 0
    svgParse := fun _ => .ok 0 }

/-- C9 counterexample: on a malformed data: URL fetch_blob panics (the
DataUrl unwrap/expect), and on a response body that is not valid UTF-8
fetch_string panics (the expect in fetch_string) — neither failure is
surfaced as a typed error value, contradicting the claim that these
operations return recoverable errors rather than panicking in exactly those
two situations. -/
theorem c9_counterexample :
    (fetch_blob envBadData ['d', 'a', 't', 'a', ':', 'x']).isPanicked = true ∧
    (fetch_string envBadUtf ['d', 'a', 't', 'a', ':', 'x']).isPanicked = true := by
  exact ⟨rfl, rfl⟩

/-- C9 (amended): fetch_blob, fetch_string and fetch_image surface failures
as typed error values distinguishing URL-parse, transport, file-I/O and
vector-decode causes — and never panic provided data-URL decoding, HTTP body
reads and UTF-8 decoding succeed, which are exactly the three failure
points the source unwraps instead of surfacing; moreover an image-decode
failure is never surfaced as the ImageParse error (the source falls back to
SVG parsing, so only the vector-decode cause can emerge from decoding). -/
theorem c9_fetch_errors_amended (env : FetchEnv) (url : List Char)
    (hdata : ∀ u, env.dataUrlDecode u ≠ none)
    (hbody : ∀ r m, env.readBody r ≠ .error m)
    (hutf : ∀ b, env.utf8Decode b ≠ none) :
    (∀ m, fetch_blob env url ≠ .panicked m) ∧
    (∀ m, fetch_string env url ≠ .panicked m) ∧
    (∀ m, fetch_image env url ≠ .panicked m) ∧
    (∀ e, fetch_image env url ≠ .err (.imageParse e)) := by
  have hblob : ∀ m, fetch_blob env url ≠ .panicked m := by
    intro m
    unfold fetch_blob
    split
    · split
      · simp
      · next hdu => exact absurd hdu (hdata url)
    · split
      · simp
      · split
        · split <;> simp
        · split
          · simp
          · split
            · next e hb => exact absurd hb (hbody _ _)
            · simp
  refine ⟨hblob, ?_, ?_, ?_⟩
  · intro m
    unfold fetch_string
    split
    · split
      · simp
      · next hu => exact absurd hu (hutf _)
    · simp
    · next m2 hfb => exact absurd hfb (hblob m2)
  · intro m
    unfold fetch_image
    split
    · simp
    · next m2 hfb => exact absurd hfb (hblob m2)
    · split
      · simp
      · split <;> simp
  · intro e
    unfold fetch_image
    split
    · next e2 hfb => cases e2 <;> simp [FetchErr.toImage]
    · next m2 hfb => exact absurd hfb (hblob m2)
    · split
      · simp
      · split <;> simp

/-- C9 witness: with every external service succeeding, none of the three
fetch operations panics on a concrete URL. -/
theorem c9_fetch_errors_amended_witness :
    fetch_blob envOk ['x'] ≠ .panicked [] ∧
    fetch_string envOk ['x'] ≠ .panicked [] ∧
    fetch_image envOk ['x'] ≠ .panicked [] := by
  have h := c9_fetch_errors_amended envOk ['x']
    (fun u => by simp [envOk]) (fun r m => by simp [envOk]) (fun b => by simp [envOk])
  exact ⟨h.1 [], h.2.1 [], h.2.2.1 []⟩

/-! ## Style data slot and snapshot flag (handle.rs, ensure_data and
set_handled_snapshot) -/

/-- Per-node style data produced by the cascade engine; the content is opaque
to the operations verified here, only the default initialisation matters. -/
structure ElementData where
  styles : List Nat
deriving DecidableEq

instance : Inhabited ElementData := ⟨⟨[]⟩⟩

/-- ensure_data from handle.rs lines 756-762: if the style-data slot is empty,
default-initialise it; return the updated slot together with the (now
guaranteed present) data the caller receives mutable access to. -/
def ensure_data (slot : Option ElementData) : Option ElementData × ElementData :=
  match slot with
  | none => (some default, default)
  | some d => (some d, d)

/-- set_handled_snapshot from handle.rs lines 740-742: an unconditional atomic
store of true into the node's snapshot_handled flag. -/
def set_handled_snapshot (_snapshot_handled : Bool) : Bool := true

/-- C10: ensure_data default-initialises an empty slot, leaves an occupied
slot untouched (a second call does not reset style data already present), and
is idempotent on the slot state; set_handled_snapshot called twice leaves the
flag true, with no error possible (the operations are total functions). -/
theorem c10_ensure_data_set_handled_snapshot_idempotent :
    ensure_data none = (some default, default) ∧
    (∀ d : ElementData, ensure_data (some d) = (some d, d)) ∧
    (∀ slot : Option ElementData, ensure_data (ensure_data slot).fst = ensure_data slot) ∧
    (∀ b : Bool, set_handled_snapshot (set_handled_snapshot b) = true ∧
      set_handled_snapshot b = true) := by
  refine ⟨rfl, fun d => rfl, fun slot => ?_, fun b => ⟨rfl, rfl⟩⟩
  cases slot <;> rfl

end Blitz
